import Mathlib

/-!
Verification of the LicenseChain Solana SDK (TypeScript) against its
natural-language specification.

The development shallowly embeds the SDK's pure utility functions
(`src/utils.ts`) and the request/response pipelines of the facade client
(`LicenseChainSolana`) and the domain managers (`SolanaLicenseManager`,
`SolanaNFTManager`, `SolanaDeFiManager`).  JavaScript strings are modelled
as Lean `String`/`List Char`, byte buffers as `List Nat` (each entry < 256),
arbitrary-precision `BigInt` values on the digit strings exercised here as
`Nat`, and the single HTTP round trip an operation performs as an explicit
`FetchResult` parameter.  Thrown JavaScript values are modelled by the
`Thrown` inductive: `Thrown.typed` corresponds to instances of the
`SolanaError` hierarchy (`src/errors.ts`), `Thrown.untyped` to every other
thrown value (native `TypeError`s, `fetch` failures, ...), so that the
source's `error instanceof SolanaError` tests become pattern matches.
-/

/-! ## Character helpers

`Char.toNat` gives the Unicode code point, matching JavaScript's
`charCodeAt` on the basic multilingual plane. -/

/-- Two characters with the same code point are equal. -/
theorem char_toNat_inj {a b : Char} (h : a.toNat = b.toNat) : a = b := by
  have h2 := congrArg Char.ofNat h
  rwa [Char.ofNat_toNat, Char.ofNat_toNat] at h2

/-- Character order is code-point order. -/
theorem char_le_iff {a b : Char} : a ≤ b ↔ a.toNat ≤ b.toNat := Char.le_def

/-! ## validatePublicKey (src/utils.ts lines 3-21) -/

/-- Membership in the character class of the regex
`/^[1-9A-HJ-NP-Za-km-z]+$/` from `validatePublicKey`, written on code
points: `'1'` = 49, `'9'` = 57, `'A'` = 65, `'H'` = 72, `'J'` = 74,
`'N'` = 78, `'P'` = 80, `'Z'` = 90, `'a'` = 97, `'k'` = 107,
`'m'` = 109, `'z'` = 122. -/
def isBase58Char (c : Char) : Bool :=
  (49 ≤ c.toNat && c.toNat ≤ 57) ||
  (65 ≤ c.toNat && c.toNat ≤ 72) ||
  (74 ≤ c.toNat && c.toNat ≤ 78) ||
  (80 ≤ c.toNat && c.toNat ≤ 90) ||
  (97 ≤ c.toNat && c.toNat ≤ 107) ||
  (109 ≤ c.toNat && c.toNat ≤ 122)

/-- Model of `validatePublicKey` (src/utils.ts).  The source returns false
for a falsy/non-string argument, then for a length outside 32..44, and
finally tests the base58 regex (`+` requires a non-empty string).  The
function is a total Lean function, mirroring that the source never
throws (its body cannot raise, and it is additionally wrapped in
`try/catch { return false }`). -/
def validatePublicKey (s : String) : Bool :=
  if s.data.isEmpty then false
  else if s.data.length < 32 || 44 < s.data.length then false
  else !s.data.isEmpty && s.data.all isBase58Char

/-- The specification's description of the Solana base58 alphabet: digits
`1`-`9`, uppercase letters except `I` and `O`, lowercase letters except
`l` (all ASCII). -/
def SpecBase58 (c : Char) : Prop :=
  ('1' ≤ c ∧ c ≤ '9') ∨
  ('A' ≤ c ∧ c ≤ 'Z' ∧ c ≠ 'I' ∧ c ≠ 'O') ∨
  ('a' ≤ c ∧ c ≤ 'z' ∧ c ≠ 'l')

instance (c : Char) : Decidable (SpecBase58 c) := by
  unfold SpecBase58; infer_instance

theorem char_ne_iff_toNat {a b : Char} : a ≠ b ↔ a.toNat ≠ b.toNat :=
  ⟨fun h h2 => h (char_toNat_inj h2), fun h h2 => h (congrArg Char.toNat h2)⟩

/-- The code's regex class coincides with the specification's alphabet. -/
theorem isBase58Char_iff_spec (c : Char) : isBase58Char c = true ↔ SpecBase58 c := by
  have h1 : ('1' : Char).toNat = 49 := rfl
  unfold isBase58Char SpecBase58
  rw [char_le_iff, char_le_iff, char_le_iff, char_le_iff, char_le_iff, char_le_iff,
    char_ne_iff_toNat, char_ne_iff_toNat, char_ne_iff_toNat]
  show _ ↔ (49 ≤ c.toNat ∧ c.toNat ≤ 57) ∨
    (65 ≤ c.toNat ∧ c.toNat ≤ 90 ∧ c.toNat ≠ 73 ∧ c.toNat ≠ 79) ∨
    (97 ≤ c.toNat ∧ c.toNat ≤ 122 ∧ c.toNat ≠ 108)
  simp only [Bool.or_eq_true, Bool.and_eq_true, decide_eq_true_eq]
  omega

/-- C3: `validatePublicKey(key)` returns true iff `key` is a (necessarily
non-empty) string of length 32 to 44 whose characters all belong to the
base58 alphabet `1-9A-HJ-NP-Za-km-z`; strings outside that length range
and strings containing `0`, `O`, `I` or `l` yield false.  Totality and
purity hold by construction of the model (the function is a Lean
function into `Bool`). -/
theorem validatePublicKey_correct :
    (∀ s : String, validatePublicKey s = true ↔
      (s ≠ "" ∧ 32 ≤ s.length ∧ s.length ≤ 44 ∧ ∀ c ∈ s.data, SpecBase58 c)) ∧
    (∀ s : String, s.length < 32 ∨ 44 < s.length → validatePublicKey s = false) ∧
    (∀ s : String, ∀ c ∈ s.data, (c = '0' ∨ c = 'O' ∨ c = 'I' ∨ c = 'l') →
      validatePublicKey s = false) := by
  have hlen : ∀ s : String, s.length = s.data.length := fun _ => rfl
  have hmain : ∀ s : String, validatePublicKey s = true ↔
      (s ≠ "" ∧ 32 ≤ s.length ∧ s.length ≤ 44 ∧ ∀ c ∈ s.data, SpecBase58 c) := by
    intro s
    have hsd : s = "" ↔ s.data = [] := by
      constructor
      · intro h; rw [h]
      · intro h; cases s with | mk d => cases h; rfl
    unfold validatePublicKey
    constructor
    · intro h
      by_cases hemp : s.data.isEmpty = true
      · rw [if_pos hemp] at h; exact absurd h (by simp)
      · rw [if_neg hemp] at h
        by_cases hrange : (s.data.length < 32 || 44 < s.data.length) = true
        · rw [if_pos hrange] at h; exact absurd h (by simp)
        · rw [if_neg hrange, Bool.and_eq_true, List.all_eq_true] at h
          simp only [Bool.or_eq_true, decide_eq_true_eq, not_or, not_lt] at hrange
          refine ⟨?_, by rw [hlen]; omega, by rw [hlen]; omega,
            fun c hc => (isBase58Char_iff_spec c).mp (h.2 c hc)⟩
          intro hs
          exact hemp (by rw [hsd.mp hs]; rfl)
    · rintro ⟨hne, h32, h44, hall⟩
      rw [hlen] at h32 h44
      have hemp : ¬(s.data.isEmpty = true) := by
        intro h
        exact hne (hsd.mpr (List.isEmpty_iff.mp h))
      have hrange : ¬((s.data.length < 32 || 44 < s.data.length) = true) := by
        simp only [Bool.or_eq_true, decide_eq_true_eq, not_or, not_lt]
        omega
      rw [if_neg hemp, if_neg hrange, Bool.and_eq_true, List.all_eq_true]
      refine ⟨by rw [Bool.not_eq_true] at hemp; rw [hemp]; rfl,
        fun c hc => (isBase58Char_iff_spec c).mpr (hall c hc)⟩
  refine ⟨hmain, ?_, ?_⟩
  · intro s hr
    by_contra h
    rw [Bool.not_eq_false] at h
    obtain ⟨-, h32, h44, -⟩ := (hmain s).mp h
    omega
  · intro s c hc hbad
    by_contra h
    rw [Bool.not_eq_false] at h
    obtain ⟨-, -, -, hall⟩ := (hmain s).mp h
    have hspec := hall c hc
    rcases hbad with rfl | rfl | rfl | rfl <;> revert hspec <;> decide

/-- Witness for C3 at concrete inputs: a 32-character base58 string is
accepted, and strings violating length or alphabet are rejected. -/
theorem validatePublicKey_correct_witness :
    validatePublicKey "11111111111111111111111111111111" = true ∧
    validatePublicKey "abc" = false ∧
    validatePublicKey "0000000000000000000000000000000O" = false := by
  refine ⟨(validatePublicKey_correct.1 _).mpr ⟨by decide, by decide, by decide, by decide⟩,
    validatePublicKey_correct.2.1 _ (by decide),
    validatePublicKey_correct.2.2 _ '0' (by decide) (by decide)⟩

/-! ## validatePrivateKey (src/utils.ts lines 23-35) -/

/-- JavaScript line terminators, which `.` in a regex without the `s`
flag does not match: LF, CR, LINE SEPARATOR, PARAGRAPH SEPARATOR. -/
def isLineTerminator (c : Char) : Bool :=
  c.toNat = 10 || c.toNat = 13 || c.toNat = 0x2028 || c.toNat = 0x2029

/-- Model of `privateKey.match(/.{1,2}/g)`: scan left to right; at a
position holding a line terminator there is no match and the scan moves
on one character; otherwise the match greedily takes the current
character plus the next one when that next character is not a line
terminator.  `match` returns the list of matched substrings (`null`,
modelled by the empty list, when there is no match at all). -/
def dotChunks : List Char → List (List Char)
  | [] => []
  | c :: rest =>
    if isLineTerminator c then dotChunks rest
    else
      match rest with
      | [] => [[c]]
      | d :: rest2 =>
        if isLineTerminator d then [c] :: dotChunks (d :: rest2)
        else [c, d] :: dotChunks rest2

/-- Argument type of `validatePrivateKey(privateKey: Uint8Array | string)`:
a byte buffer or a string. -/
inductive PrivateKeyInput where
  | bytes (b : List Nat)
  | str (s : String)
deriving DecidableEq

/-- Model of `validatePrivateKey` (src/utils.ts).  For a string the source
builds `new Uint8Array(privateKey.match(/.{1,2}/g)?.map(b => parseInt(b, 16)) || [])`
and compares its length to 64; `parseInt` yields `NaN` on non-hex chunks
but the *length* of the array is the number of chunks regardless, so only
the chunk count matters.  For a buffer it checks `length === 64`. -/
def validatePrivateKey : PrivateKeyInput → Bool
  | .bytes b => b.length == 64
  | .str s => (dotChunks s.data).length == 64

/-- Hex digit (`0-9`, `a-f`, `A-F`). -/
def isHexDigit (c : Char) : Bool :=
  (48 ≤ c.toNat && c.toNat ≤ 57) ||
  (97 ≤ c.toNat && c.toNat ≤ 102) ||
  (65 ≤ c.toNat && c.toNat ≤ 70)

/-- The specification's predicate on strings: a valid hex encoding of
exactly 64 bytes, i.e. 128 hex digits. -/
def IsHex64ByteString (s : String) : Prop :=
  s.length = 128 ∧ ∀ c ∈ s.data, isHexDigit c = true

instance (s : String) : Decidable (IsHex64ByteString s) := by
  unfold IsHex64ByteString; infer_instance

/-- Chunk count with no line terminators: every step consumes two
characters (or the final lone one). -/
theorem dotChunks_length_no_terminator (l : List Char)
    (h : ∀ c ∈ l, isLineTerminator c = false) :
    (dotChunks l).length = (l.length + 1) / 2 := by
  suffices hgen : ∀ n (l : List Char), l.length ≤ n →
      (∀ c ∈ l, isLineTerminator c = false) →
      (dotChunks l).length = (l.length + 1) / 2 from hgen l.length l le_rfl h
  intro n
  induction n with
  | zero =>
    intro l hl _
    match l with
    | [] => rfl
    | _ :: _ => simp at hl
  | succ n ih =>
    intro l hl hterm
    match l with
    | [] => rfl
    | [c] => simp [dotChunks, hterm c (by simp)]
    | c :: d :: rest =>
      have hc := hterm c (by simp)
      have hd := hterm d (by simp)
      have hlen : rest.length ≤ n := by
        simp only [List.length_cons] at hl
        omega
      have ihr := ih rest hlen (fun x hx => hterm x (by simp [hx]))
      simp only [dotChunks, hc, hd, Bool.false_eq_true, if_false, List.length_cons, ihr]
      omega

/-- C8 counterexample: 128 letters `z` form no hex encoding at all, yet
`validatePrivateKey` accepts the string, because the regex chunk count
(64) is all the source compares; the `NaN`s produced by `parseInt` on
non-hex chunks do not change the array length. -/
theorem validatePrivateKey_counterexample :
    validatePrivateKey (.str (String.mk (List.replicate 128 'z'))) = true ∧
    ¬ IsHex64ByteString (String.mk (List.replicate 128 'z')) := by
  have hterm : ∀ c ∈ List.replicate 128 'z', isLineTerminator c = false := by
    intro c hc
    rw [List.eq_of_mem_replicate hc]
    rfl
  constructor
  · have h1 := dotChunks_length_no_terminator (List.replicate 128 'z') hterm
    show ((dotChunks (String.mk (List.replicate 128 'z')).data).length == 64) = true
    rw [show (String.mk (List.replicate 128 'z')).data = List.replicate 128 'z' from rfl, h1,
      List.length_replicate]
    decide
  · intro h
    have hz := h.2 'z' (List.mem_replicate.mpr ⟨by omega, rfl⟩)
    revert hz; decide

/-- C8 amended: `validatePrivateKey` accepts a byte buffer iff its length
is 64; it accepts a string iff the `/.{1,2}/g` chunking of the string
yields exactly 64 chunks — for a string without line terminators that
means exactly that its length is 127 or 128, with no requirement
whatsoever that the characters be hex digits. -/
theorem validatePrivateKey_amended :
    (∀ b : List Nat, validatePrivateKey (.bytes b) = true ↔ b.length = 64) ∧
    (∀ s : String, validatePrivateKey (.str s) = true ↔ (dotChunks s.data).length = 64) ∧
    (∀ s : String, (∀ c ∈ s.data, isLineTerminator c = false) →
      (validatePrivateKey (.str s) = true ↔ (s.length = 127 ∨ s.length = 128))) := by
  refine ⟨fun b => by simp [validatePrivateKey], fun s => by simp [validatePrivateKey], ?_⟩
  intro s h
  have hlen : s.length = s.data.length := rfl
  simp only [validatePrivateKey, beq_iff_eq, dotChunks_length_no_terminator s.data h, hlen]
  omega

/-- Witness for C8: the 64-byte buffer of zeros is accepted; a 127
character string of `0`s (not a byte-aligned hex string) is accepted; a
3-character string is rejected. -/
theorem validatePrivateKey_amended_witness :
    validatePrivateKey (.bytes (List.replicate 64 0)) = true ∧
    validatePrivateKey (.str (String.mk (List.replicate 127 '0'))) = true ∧
    validatePrivateKey (.str "abc") = false := by
  refine ⟨(validatePrivateKey_amended.1 _).mpr (by simp), ?_, ?_⟩
  · refine (validatePrivateKey_amended.2.2 _ ?_).mpr (Or.inl (by simp [String.length]))
    intro c hc
    rw [List.eq_of_mem_replicate hc]
    rfl
  · have h := validatePrivateKey_amended.2.2 "abc" (by decide)
    rw [Bool.eq_false_iff]
    intro h2
    rcases h.mp h2 with h3 | h3 <;> revert h3 <;> decide

/-! ## retry (src/utils.ts lines 117-141)

The source runs `fn` (invocation number `k`, counting from 0 and equal
to the `attempts` counter before the call); on failure it increments
`attempts` and rejects with that error when `attempts >= maxRetries`,
otherwise re-schedules itself after `delay * attempts` milliseconds.
The model takes the outcome of the `k`-th invocation as `f k` and
returns the settled result together with the total number of
invocations performed and the list of back-off waits, in order. -/


structure RetryOutcome (ε α : Type) where
  result : Except ε α
  invocations : Nat
  waits : List Nat

def retryAux (f : Nat → Except ε α) (maxRetries delay : Nat) (k : Nat) :
    RetryOutcome ε α :=
  match f k with
  | .ok a => ⟨.ok a, k + 1, []⟩
  | .error e =>
    if h : k + 1 ≥ maxRetries then ⟨.error e, k + 1, []⟩
    else
      let r := retryAux f maxRetries delay (k + 1)
      ⟨r.result, r.invocations, delay * (k + 1) :: r.waits⟩
termination_by maxRetries - k
decreasing_by omega

/-- Model of `retry` (src/utils.ts): start with `attempts = 0`. -/
def retry (f : Nat → Except ε α) (maxRetries delay : Nat) : RetryOutcome ε α :=
  retryAux f maxRetries delay 0

theorem retryAux_ok {f : Nat → Except ε α} {m d k : Nat} {a : α}
    (h : f k = .ok a) : retryAux f m d k = ⟨.ok a, k + 1, []⟩ := by
  rw [retryAux]
  split
  · rename_i a' heq
    rw [h] at heq
    cases heq
    rfl
  · rename_i e heq
    rw [h] at heq
    cases heq

theorem retryAux_err_stop {f : Nat → Except ε α} {m d k : Nat} {e : ε}
    (h : f k = .error e) (hm : k + 1 ≥ m) :
    retryAux f m d k = ⟨.error e, k + 1, []⟩ := by
  rw [retryAux]
  split
  · rename_i a heq
    rw [h] at heq
    cases heq
  · rename_i e' heq
    rw [h] at heq
    cases heq
    rw [dif_pos hm]

theorem retryAux_err_cont {f : Nat → Except ε α} {m d k : Nat} {e : ε}
    (h : f k = .error e) (hm : ¬(k + 1 ≥ m)) :
    retryAux f m d k =
      ⟨(retryAux f m d (k + 1)).result, (retryAux f m d (k + 1)).invocations,
        d * (k + 1) :: (retryAux f m d (k + 1)).waits⟩ := by
  rw [retryAux]
  split
  · rename_i a heq
    rw [h] at heq
    cases heq
  · rename_i e' heq
    rw [h] at heq
    cases heq
    rw [dif_neg hm]

theorem retryAux_invocations_ge (f : Nat → Except ε α) (m d k : Nat) :
    k + 1 ≤ (retryAux f m d k).invocations := by
  suffices hgen : ∀ fuel k, m - k ≤ fuel → k + 1 ≤ (retryAux f m d k).invocations from
    hgen (m - k) k le_rfl
  intro fuel
  induction fuel with
  | zero =>
    intro k hk
    cases hfk : f k with
    | ok a => rw [retryAux_ok hfk]
    | error e => rw [retryAux_err_stop hfk (by omega)]
  | succ fuel ih =>
    intro k hk
    cases hfk : f k with
    | ok a => rw [retryAux_ok hfk]
    | error e =>
      by_cases h : k + 1 ≥ m
      · rw [retryAux_err_stop hfk h]
      · rw [retryAux_err_cont hfk h]
        exact Nat.le_of_succ_le (ih (k + 1) (by omega))

theorem retryAux_waits (f : Nat → Except ε α) (m d k : Nat) :
    (retryAux f m d k).waits =
      (List.range ((retryAux f m d k).invocations - (k + 1))).map
        (fun i => d * (k + 1 + i)) := by
  suffices hgen : ∀ fuel k, m - k ≤ fuel → (retryAux f m d k).waits =
      (List.range ((retryAux f m d k).invocations - (k + 1))).map
        (fun i => d * (k + 1 + i)) from hgen (m - k) k le_rfl
  intro fuel
  induction fuel with
  | zero =>
    intro k hk
    cases hfk : f k with
    | ok a => rw [retryAux_ok hfk]; simp
    | error e => rw [retryAux_err_stop hfk (by omega)]; simp
  | succ fuel ih =>
    intro k hk
    cases hfk : f k with
    | ok a => rw [retryAux_ok hfk]; simp
    | error e =>
      by_cases h : k + 1 ≥ m
      · rw [retryAux_err_stop hfk h]; simp
      · rw [retryAux_err_cont hfk h]
        have hge := retryAux_invocations_ge f m d (k + 1)
        have ihr := ih (k + 1) (by omega)
        obtain ⟨j, hj⟩ : ∃ j, (retryAux f m d (k + 1)).invocations - (k + 2) = j :=
          ⟨_, rfl⟩
        have hinv : (retryAux f m d (k + 1)).invocations - (k + 1) = j + 1 := by omega
        show d * (k + 1) :: (retryAux f m d (k + 1)).waits = _
        rw [hinv, List.range_succ_eq_map, List.map_cons, List.map_map, ihr, hj]
        refine congrArg₂ _ (by rw [Nat.add_zero]) ?_
        rw [List.map_inj_left]
        intro i hi
        show d * (k + 1 + 1 + i) = d * (k + 1 + (i + 1))
        ring_nf

theorem retryAux_all_fail (f : Nat → Except ε α) (e : Nat → ε)
    (hf : ∀ k, f k = .error (e k)) (m d : Nat) :
    ∀ k, k < m → (retryAux f m d k).result = .error (e (m - 1)) ∧
      (retryAux f m d k).invocations = m := by
  suffices hgen : ∀ fuel k, m - k ≤ fuel → k < m →
      (retryAux f m d k).result = .error (e (m - 1)) ∧
      (retryAux f m d k).invocations = m from
    fun k hk => hgen (m - k) k le_rfl hk
  intro fuel
  induction fuel with
  | zero =>
    intro k hk hkm
    omega
  | succ fuel ih =>
    intro k hk hkm
    by_cases h : k + 1 ≥ m
    · rw [retryAux_err_stop (hf k) h]
      refine ⟨?_, ?_⟩
      · show Except.error (e k) = Except.error (e (m - 1))
        rw [show k = m - 1 from by omega]
      · show k + 1 = m
        omega
    · rw [retryAux_err_cont (hf k) h]
      exact ih (k + 1) (by omega) (by omega)

/-- C5: `retry` always invokes the operation at least once (and with
`maxAttempts = 0` exactly once); after the `n`-th failed attempt the
wait before the next attempt is `baseDelay * n` (the wait list is
`[baseDelay*1, baseDelay*2, ...]`, linear back-off); with
`maxAttempts = 3`, an operation failing twice then succeeding returns
the success value after exactly 3 invocations (having waited
`baseDelay*1` then `baseDelay*2`), and an operation that always fails
rejects with the last error after exactly `maxAttempts = 3`
invocations. -/
theorem retry_correct :
    (∀ (f : Nat → Except ε α) (m d : Nat), 1 ≤ (retry f m d).invocations) ∧
    (∀ (f : Nat → Except ε α) (d : Nat), (retry f 0 d).invocations = 1) ∧
    (∀ (f : Nat → Except ε α) (m d : Nat),
      (retry f m d).waits =
        (List.range ((retry f m d).invocations - 1)).map (fun i => d * (i + 1))) ∧
    (∀ (f : Nat → Except ε α) (d : Nat) (e₁ e₂ : ε) (v : α),
      f 0 = .error e₁ → f 1 = .error e₂ → f 2 = .ok v →
      retry f 3 d = ⟨.ok v, 3, [d * 1, d * 2]⟩) ∧
    (∀ (f : Nat → Except ε α) (d : Nat) (e : Nat → ε), (∀ k, f k = .error (e k)) →
      retry f 3 d = ⟨.error (e 2), 3, [d * 1, d * 2]⟩) := by
  refine ⟨fun f m d => retryAux_invocations_ge f m d 0, ?_, ?_, ?_, ?_⟩
  · intro f d
    cases hfk : f 0 with
    | ok a => rw [retry, retryAux_ok hfk]
    | error e => rw [retry, retryAux_err_stop hfk (by omega)]
  · intro f m d
    have h := retryAux_waits f m d 0
    show (retryAux f m d 0).waits =
      (List.range ((retryAux f m d 0).invocations - 1)).map (fun i => d * (i + 1))
    rw [h]
    simp only [Nat.zero_add]
    rw [List.map_inj_left]
    intro i hi
    ring_nf
  · intro f d e₁ e₂ v h0 h1 h2
    rw [retry, retryAux_err_cont h0 (by omega), retryAux_err_cont h1 (by omega),
      retryAux_ok h2]
  · intro f d e hf
    have h := retryAux_all_fail f e hf 3 d 0 (by omega)
    have hw := retryAux_waits f 3 d 0
    rw [h.2] at hw
    have hw2 : (retryAux f 3 d 0).waits = [d * 1, d * 2] := by
      rw [hw, show List.range (3 - 1) = [0, 1] from rfl]
      simp
    rw [retry]
    calc retryAux f 3 d 0
        = ⟨(retryAux f 3 d 0).result, (retryAux f 3 d 0).invocations,
            (retryAux f 3 d 0).waits⟩ := rfl
      _ = ⟨.error (e (3 - 1)), 3, [d * 1, d * 2]⟩ := by rw [h.1, h.2, hw2]

/-- Witness for C5: a concrete operation failing twice then returning 42
under `maxAttempts = 3`, `baseDelay = 5`, and a concrete always-failing
operation. -/
theorem retry_correct_witness :
    retry (fun k => if k < 2 then Except.error "boom" else Except.ok 42) 3 5 =
      ⟨Except.ok 42, 3, [5, 10]⟩ ∧
    retry (fun _ => (Except.error "down" : Except String Nat)) 3 7 =
      ⟨Except.error "down", 3, [7, 14]⟩ := by
  constructor
  · exact retry_correct.2.2.2.1 _ 5 "boom" "boom" 42 rfl rfl rfl
  · exact retry_correct.2.2.2.2 _ 7 (fun _ => "down") (fun _ => rfl)

/-! ## createWebhookSignature / verifyWebhookSignature
(src/utils.ts lines 172-191)

The source UTF-8-encodes `payload` and `secret` with `TextEncoder`; the
model works directly on the resulting byte lists (`List Nat`, entries
< 256).  `btoa` base64-encodes the byte string produced by
`String.fromCharCode(byte ^ key[i % key.length])`. -/

/-- The standard base64 alphabet used by `btoa`. -/
def base64Table : List Char :=
  "ABCDEFGHIJKLMNOPQRSTUVWXYZabcdefghijklmnopqrstuvwxyz0123456789+/".data

def b64Char (n : Nat) : Char := base64Table.getD n 'A'

/-- Base64 encoding with `=` padding, as `btoa` produces. -/
def base64Encode : List Nat → List Char
  | [] => []
  | [a] => [b64Char (a / 4), b64Char (a % 4 * 16), '=', '=']
  | [a, b] => [b64Char (a / 4), b64Char (a % 4 * 16 + b / 16), b64Char (b % 16 * 4), '=']
  | a :: b :: c :: rest =>
    b64Char (a / 4) :: b64Char (a % 4 * 16 + b / 16) ::
      b64Char (b % 16 * 4 + c / 64) :: b64Char (c % 64) :: base64Encode rest

/-- Model of `key[i % key.length]` in `createWebhookSignature`: for an
empty key, JavaScript evaluates `i % 0` to `NaN` and `key[NaN]` to
`undefined`, and `byte ^ undefined` is `byte ^ 0`; the model returns 0
in that case. -/
def keyAt (key : List Nat) (i : Nat) : Nat :=
  if key.length = 0 then 0 else key.getD (i % key.length) 0

/-- The XOR stream `data.map((byte, i) => byte ^ key[i % key.length])`,
with `k` the index of the first element. -/
def xorWithKey (key : List Nat) : Nat → List Nat → List Nat
  | _, [] => []
  | k, b :: rest => (Nat.xor b (keyAt key k)) :: xorWithKey key (k + 1) rest

/-- Model of `createWebhookSignature` (src/utils.ts): base64 of the
payload bytes XORed against the key bytes indexed modulo the key
length. -/
def createWebhookSignature (payload secret : List Nat) : List Char :=
  base64Encode (xorWithKey secret 0 payload)

/-- Model of `verifyWebhookSignature` (src/utils.ts): recompute and
compare with `===`. -/
def verifyWebhookSignature (payload : List Nat) (signature : List Char)
    (secret : List Nat) : Bool :=
  signature == createWebhookSignature payload secret

/-- The specification's keystream: the secret repeated (enough copies
concatenated) and cut to the payload length. -/
def specKeystream (secret : List Nat) (n : Nat) : List Nat :=
  (List.replicate n secret).flatten.take n

theorem xorWithKey_length (key : List Nat) (k : Nat) (l : List Nat) :
    (xorWithKey key k l).length = l.length := by
  induction l generalizing k with
  | nil => rfl
  | cons b rest ih => simp [xorWithKey, ih]

theorem xorWithKey_getElem (key : List Nat) (k : Nat) (l : List Nat) (i : Nat)
    (hi : i < (xorWithKey key k l).length) (hil : i < l.length) :
    (xorWithKey key k l)[i] = Nat.xor l[i] (keyAt key (k + i)) := by
  induction l generalizing k i with
  | nil => simp [xorWithKey] at hi
  | cons b rest ih =>
    match i with
    | 0 => simp [xorWithKey]
    | j + 1 =>
      have hj : j < (xorWithKey key (k + 1) rest).length := by
        simpa [xorWithKey] using hi
      have hjl : j < rest.length := by
        simpa using hil
      show (xorWithKey key (k + 1) rest)[j] = _
      rw [ih (k + 1) j hj hjl, List.getElem_cons_succ]
      congr 1
      congr 1
      omega

theorem flatten_replicate_getD (s : List Nat) (_hs : s ≠ []) :
    ∀ (n i : Nat), i < n * s.length →
      ((List.replicate n s).flatten.getD i 0) = s.getD (i % s.length) 0 := by
  intro n
  induction n with
  | zero => intro i hi; omega
  | succ n ih =>
    intro i hi
    rw [List.replicate_succ, List.flatten_cons]
    by_cases h : i < s.length
    · rw [List.getD_append _ _ _ _ h, Nat.mod_eq_of_lt h]
    · push_neg at h
      rw [List.getD_append_right _ _ _ _ h]
      rw [ih (i - s.length) (by
        have hexp : (n + 1) * s.length = n * s.length + s.length := by ring
        omega)]
      rw [Nat.mod_eq_sub_mod h]

theorem specKeystream_getD (s : List Nat) (hs : s ≠ []) (n i : Nat) (hi : i < n) :
    (specKeystream s n).getD i 0 = keyAt s i := by
  have hslen : 0 < s.length := List.length_pos.mpr hs
  have hin : i < n * s.length := by
    calc i < n := hi
    _ ≤ n * s.length := Nat.le_mul_of_pos_right n hslen
  unfold specKeystream keyAt
  rw [if_neg (by omega)]
  rw [List.getD_eq_getElem?_getD, List.getElem?_take_of_lt hi, ← List.getD_eq_getElem?_getD,
    flatten_replicate_getD s hs n i hin]

theorem specKeystream_length (s : List Nat) (hs : s ≠ []) (n : Nat) :
    (specKeystream s n).length = n := by
  have hslen : 0 < s.length := List.length_pos.mpr hs
  unfold specKeystream
  rw [List.length_take, List.length_flatten]
  have : (List.map List.length (List.replicate n s)).sum = n * s.length := by
    rw [List.map_replicate, List.sum_replicate, smul_eq_mul]
  rw [this]
  have : n ≤ n * s.length := Nat.le_mul_of_pos_right n hslen
  omega

/-- With a non-empty secret, the code's indexed XOR equals the
specification's "repeating key" XOR. -/
theorem xorWithKey_eq_spec (payload secret : List Nat) (hs : secret ≠ []) :
    xorWithKey secret 0 payload =
      List.zipWith Nat.xor payload (specKeystream secret payload.length) := by
  have hlen1 := xorWithKey_length secret 0 payload
  have hlen2 := specKeystream_length secret hs payload.length
  apply List.ext_getElem
  · rw [hlen1, List.length_zipWith, hlen2, Nat.min_self]
  · intro i h1 h2
    have hip : i < payload.length := by rwa [hlen1] at h1
    rw [xorWithKey_getElem secret 0 payload i h1 hip, List.getElem_zipWith]
    congr 1
    have hgd := specKeystream_getD secret hs payload.length i hip
    rw [List.getD_eq_getElem?_getD, List.getElem?_eq_getElem (by omega),
      Option.getD_some] at hgd
    rw [hgd]
    congr 1
    omega

/-- C9: `verifyWebhookSignature` accepts exactly the string
`createWebhookSignature` produces for the same payload and secret (in
particular round-tripping always verifies), and with a non-empty secret
the produced signature is the base64 encoding of the payload XORed
byte-wise against the repeating secret keystream. -/
theorem webhookSignature_correct :
    (∀ (payload secret : List Nat) (signature : List Char),
      verifyWebhookSignature payload signature secret = true ↔
        signature = createWebhookSignature payload secret) ∧
    (∀ (payload secret : List Nat),
      verifyWebhookSignature payload (createWebhookSignature payload secret) secret = true) ∧
    (∀ (payload secret : List Nat), secret ≠ [] →
      createWebhookSignature payload secret =
        base64Encode (List.zipWith Nat.xor payload
          (specKeystream secret payload.length))) := by
  refine ⟨fun p s sig => by rw [verifyWebhookSignature, beq_iff_eq], ?_, ?_⟩
  · intro p s
    rw [verifyWebhookSignature, beq_iff_eq]
  · intro p s hs
    rw [createWebhookSignature, xorWithKey_eq_spec p s hs]

/-- Witness for C9 at a concrete payload/secret pair. -/
theorem webhookSignature_correct_witness :
    verifyWebhookSignature [104, 105] (createWebhookSignature [104, 105] [1, 2]) [1, 2] = true ∧
    createWebhookSignature [104, 105] [1, 2] =
      base64Encode (List.zipWith Nat.xor [104, 105]
        (specKeystream [1, 2] 2)) := by
  exact ⟨webhookSignature_correct.2.1 [104, 105] [1, 2],
    webhookSignature_correct.2.2 [104, 105] [1, 2] (by decide)⟩

/-! ## parseUnits / formatUnits (src/utils.ts lines 45-69)

`parseUnits` splits on `'.'` (`const [integer, fraction = ''] =
value.split('.')` keeps the first two fields), pads/truncates the
fraction to `decimals` digits and feeds the concatenation to `BigInt`.
On the unsigned digit strings quantified over here `BigInt` is exactly
the base-10 value (with `BigInt('')` = 0), modelled by `digitsVal`.

`formatUnits` divides by `BigInt(10 ** decimals)`.  `10 ** decimals` is
an IEEE-754 double: it equals 10^decimals exactly if and only if
`decimals ≤ 22` (for larger exponents the 53-bit mantissa rounds), so
the model uses the exact power and every theorem about `formatUnits`
carries the hypothesis `d ≤ 22` restricting it to the regime where the
model is faithful to the source. -/

def isDigitChar (c : Char) : Bool := 48 ≤ c.toNat && c.toNat ≤ 57

/-- Numeric value of a digit character (`'0'` = 48). -/
def digitVal (c : Char) : Nat := c.toNat - 48

/-- Value of a digit string, as `BigInt` computes it on digit-only
strings (`BigInt('')` is `0n`, leading zeros are ignored). -/
def digitsVal (l : List Char) : Nat :=
  l.foldl (fun a c => 10 * a + digitVal c) 0

/-- Model of `value.split('.')` restricted to the first two fields, with
the `fraction = ''` default: the characters before the first `'.'` and
the characters between the first and second `'.'`. -/
def splitOnDot (l : List Char) : List Char × List Char :=
  let intPart := l.takeWhile (fun c => c != '.')
  match l.dropWhile (fun c => c != '.') with
  | [] => (intPart, [])
  | _ :: tail => (intPart, tail.takeWhile (fun c => c != '.'))

/-- Model of `fraction.padEnd(decimals, '0').slice(0, decimals)`. -/
def padEndTake (l : List Char) (d : Nat) : List Char :=
  (l ++ List.replicate (d - l.length) '0').take d

/-- Model of `parseUnits` (src/utils.ts) on unsigned decimal strings. -/
def parseUnits (value : String) (decimals : Nat) : Nat :=
  let p := splitOnDot value.data
  digitsVal (p.1 ++ padEndTake p.2 decimals)

/-- Decimal digits of `n`, most significant first, as
`BigInt.prototype.toString` renders an unsigned value. -/
def natDecimal (n : Nat) : List Char :=
  if h : n < 10 then [Char.ofNat (48 + n)]
  else natDecimal (n / 10) ++ [Char.ofNat (48 + n % 10)]
termination_by n
decreasing_by exact Nat.div_lt_self (by omega) (by omega)

/-- Model of `.replace(/0+$/, '')`: trailing zeros removed. -/
def trimTrailingZeros (l : List Char) : List Char :=
  (l.reverse.dropWhile (fun c => c == '0')).reverse

/-- Model of `remainder.toString().padStart(decimals, '0')`. -/
def padStart (l : List Char) (d : Nat) : List Char :=
  List.replicate (d - l.length) '0' ++ l

/-- Model of `formatUnits` (src/utils.ts) on unsigned values, with the
exact divisor 10^decimals (see the section comment about `decimals ≤ 22`). -/
def formatUnits (value : Nat) (decimals : Nat) : String :=
  let divisor := 10 ^ decimals
  let q := value / divisor
  let r := value % divisor
  if r = 0 then String.mk (natDecimal q)
  else
    let trimmed := trimTrailingZeros (padStart (natDecimal r) decimals)
    if trimmed.isEmpty then String.mk (natDecimal q)
    else String.mk (natDecimal q ++ '.' :: trimmed)

/-- `digitsVal` over an appended block. -/
theorem digitsVal_append (a b : List Char) :
    digitsVal (a ++ b) = digitsVal a * 10 ^ b.length + digitsVal b := by
  suffices hgen : ∀ (b : List Char) (x : Nat),
      b.foldl (fun a c => 10 * a + digitVal c) x =
        x * 10 ^ b.length + b.foldl (fun a c => 10 * a + digitVal c) 0 by
    rw [digitsVal, List.foldl_append, hgen b (List.foldl (fun a c => 10 * a + digitVal c) 0 a)]
    rfl
  intro b
  induction b with
  | nil => intro x; simp
  | cons c rest ih =>
    intro x
    rw [List.foldl_cons, List.foldl_cons, ih (10 * x + digitVal c),
      ih (10 * 0 + digitVal c), List.length_cons]
    ring

theorem digitsVal_cons (c : Char) (l : List Char) :
    digitsVal (c :: l) = digitVal c * 10 ^ l.length + digitsVal l := by
  have h := digitsVal_append [c] l
  simpa [digitsVal] using h

/-- A digit string's value is below 10^length. -/
theorem digitsVal_lt (l : List Char) (h : ∀ c ∈ l, isDigitChar c = true) :
    digitsVal l < 10 ^ l.length := by
  induction l with
  | nil => simp [digitsVal]
  | cons c rest ih =>
    have hc := h c (by simp)
    have hd : digitVal c ≤ 9 := by
      simp only [isDigitChar, Bool.and_eq_true, decide_eq_true_eq] at hc
      unfold digitVal
      omega
    have hr := ih (fun x hx => h x (by simp [hx]))
    rw [digitsVal_cons, List.length_cons, pow_succ]
    calc digitVal c * 10 ^ rest.length + digitsVal rest
        ≤ 9 * 10 ^ rest.length + digitsVal rest := by
          have := Nat.mul_le_mul_right (10 ^ rest.length) hd
          omega
      _ < 9 * 10 ^ rest.length + 10 ^ rest.length := by omega
      _ = 10 ^ rest.length * 10 := by ring
      _ ≤ 10 ^ rest.length * 10 := le_rfl

/-- The first component of `split('.')`: everything before the first dot. -/
theorem takeWhile_append_dot (a b : List Char) (ha : ∀ c ∈ a, c ≠ '.') :
    List.takeWhile (fun c => c != '.') (a ++ '.' :: b) = a := by
  induction a with
  | nil => simp [List.takeWhile]
  | cons x xs ih =>
    have hx : x ≠ '.' := ha x (by simp)
    simp only [List.cons_append, List.takeWhile_cons]
    rw [if_pos (by simpa using hx), ih (fun c hc => ha c (by simp [hc]))]

theorem dropWhile_append_dot (a b : List Char) (ha : ∀ c ∈ a, c ≠ '.') :
    List.dropWhile (fun c => c != '.') (a ++ '.' :: b) = '.' :: b := by
  induction a with
  | nil => simp [List.dropWhile]
  | cons x xs ih =>
    have hx : x ≠ '.' := ha x (by simp)
    simp only [List.cons_append, List.dropWhile_cons]
    rw [if_pos (by simpa using hx), ih (fun c hc => ha c (by simp [hc]))]

/-- `split('.')` on a string assembled from a dot-free integer part and a
dot-free fraction recovers the two parts. -/
theorem splitOnDot_append (a b : List Char) (ha : ∀ c ∈ a, c ≠ '.')
    (hb : ∀ c ∈ b, c ≠ '.') : splitOnDot (a ++ '.' :: b) = (a, b) := by
  unfold splitOnDot
  rw [takeWhile_append_dot a b ha, dropWhile_append_dot a b ha]
  show (a, List.takeWhile (fun c => c != '.') b) = (a, b)
  rw [List.takeWhile_eq_self_iff.mpr (fun c hc => by simpa using hb c hc)]

/-- `split('.')` on a dot-free string: the whole string and the default
empty fraction. -/
theorem splitOnDot_nodot (a : List Char) (ha : ∀ c ∈ a, c ≠ '.') :
    splitOnDot a = (a, []) := by
  unfold splitOnDot
  rw [List.takeWhile_eq_self_iff.mpr (fun c hc => by simpa using ha c hc),
    List.dropWhile_eq_nil_iff.mpr (fun c hc => by simpa using ha c hc)]

theorem padEndTake_of_le (f : List Char) (d : Nat) (hd : d ≤ f.length) :
    padEndTake f d = f.take d := by
  unfold padEndTake
  rw [Nat.sub_eq_zero_of_le hd, List.replicate_zero, List.append_nil]

theorem padEndTake_of_ge (f : List Char) (d : Nat) (hd : f.length ≤ d) :
    padEndTake f d = f ++ List.replicate (d - f.length) '0' := by
  unfold padEndTake
  apply List.take_of_length_le
  rw [List.length_append, List.length_replicate]
  omega

/-- C10: `parseUnits` truncates the fraction to its first `decimals`
digits, with no rounding and no error: on any two inputs whose integer
parts agree and whose fractions (each at least `decimals` digits long)
agree on their first `decimals` digits, it returns the same integer,
namely the value of the integer part followed by the first `decimals`
fraction digits. -/
theorem parseUnits_truncates :
    ∀ (intPart frac1 frac2 : List Char) (d : Nat),
      (∀ c ∈ intPart, c ≠ '.') → (∀ c ∈ frac1, c ≠ '.') → (∀ c ∈ frac2, c ≠ '.') →
      d ≤ frac1.length → d ≤ frac2.length → frac1.take d = frac2.take d →
      parseUnits (String.mk (intPart ++ '.' :: frac1)) d =
          digitsVal (intPart ++ frac1.take d) ∧
      parseUnits (String.mk (intPart ++ '.' :: frac1)) d =
        parseUnits (String.mk (intPart ++ '.' :: frac2)) d := by
  intro intPart frac1 frac2 d hi h1 h2 hd1 hd2 heq
  have e1 : parseUnits (String.mk (intPart ++ '.' :: frac1)) d =
      digitsVal (intPart ++ frac1.take d) := by
    unfold parseUnits
    rw [show (String.mk (intPart ++ '.' :: frac1)).data = intPart ++ '.' :: frac1 from rfl,
      splitOnDot_append intPart frac1 hi h1]
    show digitsVal (intPart ++ padEndTake frac1 d) = _
    rw [padEndTake_of_le frac1 d hd1]
  have e2 : parseUnits (String.mk (intPart ++ '.' :: frac2)) d =
      digitsVal (intPart ++ frac2.take d) := by
    unfold parseUnits
    rw [show (String.mk (intPart ++ '.' :: frac2)).data = intPart ++ '.' :: frac2 from rfl,
      splitOnDot_append intPart frac2 hi h2]
    show digitsVal (intPart ++ padEndTake frac2 d) = _
    rw [padEndTake_of_le frac2 d hd2]
  exact ⟨e1, by rw [e1, e2, heq]⟩

/-- Witness for C10: `"1.23456"` and `"1.23499"` (differing only beyond
the third fractional digit) both parse to 1234 at `decimals = 3`. -/
theorem parseUnits_truncates_witness :
    parseUnits "1.23456" 3 = 1234 ∧ parseUnits "1.23456" 3 = parseUnits "1.23499" 3 := by
  have h := parseUnits_truncates ['1'] ['2','3','4','5','6'] ['2','3','4','9','9'] 3
    (by decide) (by decide) (by decide) (by decide) (by decide) (by decide)
  exact ⟨by rw [show ("1.23456" : String) = String.mk (['1'] ++ '.' :: ['2','3','4','5','6']) from rfl,
      h.1]; decide,
    by rw [show ("1.23456" : String) = String.mk (['1'] ++ '.' :: ['2','3','4','5','6']) from rfl,
      show ("1.23499" : String) = String.mk (['1'] ++ '.' :: ['2','3','4','9','9']) from rfl,
      h.2]⟩

theorem natDecimal_lt10 {n : Nat} (h : n < 10) :
    natDecimal n = [Char.ofNat (48 + n)] := by
  rw [natDecimal, dif_pos h]

theorem natDecimal_ge10 {n : Nat} (h : ¬ n < 10) :
    natDecimal n = natDecimal (n / 10) ++ [Char.ofNat (48 + n % 10)] := by
  rw [natDecimal]
  rw [dif_neg h]

theorem charOfNat_digit_toNat {m : Nat} (h : m < 10) :
    (Char.ofNat (48 + m)).toNat = 48 + m := by
  interval_cases m <;> decide

theorem digitVal_charOfNat {m : Nat} (h : m < 10) :
    digitVal (Char.ofNat (48 + m)) = m := by
  rw [digitVal, charOfNat_digit_toNat h]
  omega

theorem isDigitChar_charOfNat {m : Nat} (h : m < 10) :
    isDigitChar (Char.ofNat (48 + m)) = true := by
  rw [isDigitChar, charOfNat_digit_toNat h]
  simp
  omega

theorem natDecimal_induction (P : Nat → Prop)
    (h1 : ∀ n, n < 10 → P n) (h2 : ∀ n, ¬ n < 10 → P (n / 10) → P n) :
    ∀ n, P n := by
  intro n
  induction n using Nat.strong_induction_on with
  | _ n ih =>
    by_cases h : n < 10
    · exact h1 n h
    · exact h2 n h (ih (n / 10) (Nat.div_lt_self (by omega) (by omega)))

theorem natDecimal_ne_nil (n : Nat) : natDecimal n ≠ [] := by
  by_cases h : n < 10
  · rw [natDecimal_lt10 h]
    simp
  · rw [natDecimal_ge10 h]
    simp

theorem digitsVal_natDecimal (n : Nat) : digitsVal (natDecimal n) = n := by
  induction n using natDecimal_induction with
  | h1 n h =>
    rw [natDecimal_lt10 h]
    show 10 * 0 + digitVal (Char.ofNat (48 + n)) = n
    rw [digitVal_charOfNat h]
    omega
  | h2 n h ih =>
    rw [natDecimal_ge10 h, digitsVal_append, ih]
    have hc : digitsVal [Char.ofNat (48 + n % 10)] = n % 10 := by
      show 10 * 0 + digitVal (Char.ofNat (48 + n % 10)) = n % 10
      rw [digitVal_charOfNat (Nat.mod_lt n (by omega))]
      omega
    rw [hc]
    show n / 10 * 10 ^ 1 + n % 10 = n
    rw [pow_one]
    omega

theorem natDecimal_digits (n : Nat) : ∀ c ∈ natDecimal n, isDigitChar c = true := by
  induction n using natDecimal_induction with
  | h1 n h =>
    rw [natDecimal_lt10 h]
    intro c hc
    rw [List.mem_singleton] at hc
    rw [hc]
    exact isDigitChar_charOfNat h
  | h2 n h ih =>
    rw [natDecimal_ge10 h]
    intro c hc
    rw [List.mem_append] at hc
    rcases hc with hc | hc
    · exact ih c hc
    · rw [List.mem_singleton] at hc
      rw [hc]
      exact isDigitChar_charOfNat (Nat.mod_lt n (by omega))

theorem natDecimal_head_ne_zero (n : Nat) (hn : n ≠ 0) :
    ∀ c ∈ (natDecimal n).head?, c ≠ '0' := by
  induction n using natDecimal_induction with
  | h1 n h =>
    rw [natDecimal_lt10 h]
    intro c hc
    rw [List.head?_cons, Option.mem_some_iff] at hc
    rw [← hc]
    rw [char_ne_iff_toNat, charOfNat_digit_toNat h]
    show 48 + n ≠ 48
    omega
  | h2 n h ih =>
    rw [natDecimal_ge10 h]
    intro c hc
    rw [List.head?_append_of_ne_nil _ (natDecimal_ne_nil (n / 10))] at hc
    exact ih (by omega) c hc

theorem natDecimal_length_le (n k : Nat) (hk : 1 ≤ k) (h : n < 10 ^ k) :
    (natDecimal n).length ≤ k := by
  induction n using natDecimal_induction generalizing k with
  | h1 n hlt =>
    rw [natDecimal_lt10 hlt]
    simpa using hk
  | h2 n hlt ih =>
    rw [natDecimal_ge10 hlt, List.length_append, List.length_cons, List.length_nil]
    have hk2 : 2 ≤ k := by
      by_contra hc
      have : k = 1 := by omega
      rw [this, pow_one] at h
      omega
    have hdiv : n / 10 < 10 ^ (k - 1) := by
      rw [Nat.div_lt_iff_lt_mul (by omega)]
      calc n < 10 ^ k := h
        _ = 10 ^ (k - 1) * 10 := by
          rw [← pow_succ]
          congr 1
          omega
    have := ih (k - 1) (by omega) hdiv
    omega

/-- Digit strings of equal length and equal value are equal. -/
theorem digits_len_val_inj : ∀ (a b : List Char),
    (∀ c ∈ a, isDigitChar c = true) → (∀ c ∈ b, isDigitChar c = true) →
    a.length = b.length → digitsVal a = digitsVal b → a = b := by
  intro a
  induction a with
  | nil =>
    intro b _ _ hlen _
    cases b with
    | nil => rfl
    | cons y ys => simp at hlen
  | cons x xs ih =>
    intro b ha hb hlen hval
    cases b with
    | nil => simp at hlen
    | cons y ys =>
      have hxd : isDigitChar x = true := ha x (by simp)
      have hyd : isDigitChar y = true := hb y (by simp)
      have hlxy : xs.length = ys.length := by simpa using hlen
      rw [digitsVal_cons, digitsVal_cons, hlxy] at hval
      have hxs : digitsVal xs < 10 ^ ys.length := by
        rw [← hlxy]
        exact digitsVal_lt xs (fun c hc => ha c (by simp [hc]))
      have hys : digitsVal ys < 10 ^ ys.length :=
        digitsVal_lt ys (fun c hc => hb c (by simp [hc]))
      have hP : 0 < 10 ^ ys.length := Nat.pos_pow_of_pos _ (by omega)
      have hdig : digitVal x = digitVal y := by
        have h1 : (digitVal x * 10 ^ ys.length + digitsVal xs) / 10 ^ ys.length
            = digitVal x := by
          rw [Nat.mul_comm (digitVal x), Nat.mul_add_div hP, Nat.div_eq_of_lt hxs]
          omega
        have h2 : (digitVal y * 10 ^ ys.length + digitsVal ys) / 10 ^ ys.length
            = digitVal y := by
          rw [Nat.mul_comm (digitVal y), Nat.mul_add_div hP, Nat.div_eq_of_lt hys]
          omega
        rw [← h1, ← h2, hval]
      have hxy : x = y := by
        apply char_toNat_inj
        simp only [isDigitChar, Bool.and_eq_true, decide_eq_true_eq] at hxd hyd
        unfold digitVal at hdig
        omega
      have hvals : digitsVal xs = digitsVal ys := by
        rw [hdig] at hval
        omega
      rw [hxy, ih ys (fun c hc => ha c (by simp [hc])) (fun c hc => hb c (by simp [hc]))
        hlxy hvals]

/-- A canonical unsigned integer numeral: all digits, and either the
single digit `0` or a non-empty string not starting with `0`. -/
def CanonicalInt (l : List Char) : Prop :=
  (∀ c ∈ l, isDigitChar c = true) ∧
  (l = ['0'] ∨ (l ≠ [] ∧ ∀ c ∈ l.head?, c ≠ '0'))

theorem digitsVal_bounds_of_head_ne_zero (l : List Char)
    (hd : ∀ c ∈ l, isDigitChar c = true) (hne : l ≠ [])
    (hh : ∀ c ∈ l.head?, c ≠ '0') :
    10 ^ (l.length - 1) ≤ digitsVal l ∧ digitsVal l < 10 ^ l.length := by
  refine ⟨?_, digitsVal_lt l hd⟩
  cases l with
  | nil => exact absurd rfl hne
  | cons c rest =>
    have hcd : isDigitChar c = true := hd c (by simp)
    have hc0 : c ≠ '0' := hh c (by simp)
    have hv : 1 ≤ digitVal c := by
      simp only [isDigitChar, Bool.and_eq_true, decide_eq_true_eq] at hcd
      rw [char_ne_iff_toNat] at hc0
      have : ('0' : Char).toNat = 48 := rfl
      unfold digitVal
      omega
    rw [digitsVal_cons, List.length_cons]
    calc 10 ^ (rest.length + 1 - 1) = 1 * 10 ^ rest.length := by
          rw [Nat.add_sub_cancel, one_mul]
      _ ≤ digitVal c * 10 ^ rest.length := Nat.mul_le_mul_right _ hv
      _ ≤ digitVal c * 10 ^ rest.length + digitsVal rest := Nat.le_add_right _ _

theorem pow10_length_unique {a b n : Nat} (ha1 : 1 ≤ a) (hb1 : 1 ≤ b)
    (ha : 10 ^ (a - 1) ≤ n) (ha2 : n < 10 ^ a)
    (hb : 10 ^ (b - 1) ≤ n) (hb2 : n < 10 ^ b) : a = b := by
  by_contra hne
  rcases Nat.lt_or_ge a b with h | h
  · have : (10 : Nat) ^ a ≤ 10 ^ (b - 1) := Nat.pow_le_pow_right (by omega) (by omega)
    omega
  · have hba : b < a := by omega
    have : (10 : Nat) ^ b ≤ 10 ^ (a - 1) := Nat.pow_le_pow_right (by omega) (by omega)
    omega

/-- `natDecimal` is a left inverse of `digitsVal` on canonical numerals. -/
theorem natDecimal_digitsVal_canonical (l : List Char) (h : CanonicalInt l) :
    natDecimal (digitsVal l) = l := by
  obtain ⟨hd, hcanon⟩ := h
  rcases hcanon with rfl | ⟨hne, hh⟩
  · rw [show digitsVal ['0'] = 0 from rfl, natDecimal_lt10 (by omega)]
  · have hb := digitsVal_bounds_of_head_ne_zero l hd hne hh
    have hlpos : 1 ≤ l.length := by
      cases l with
      | nil => exact absurd rfl hne
      | cons c rest => simp
    have hn0 : digitsVal l ≠ 0 := by
      have hpos : 0 < 10 ^ (l.length - 1) := Nat.pos_pow_of_pos _ (by omega)
      omega
    have hnb := digitsVal_bounds_of_head_ne_zero (natDecimal (digitsVal l))
      (natDecimal_digits _) (natDecimal_ne_nil _) (natDecimal_head_ne_zero _ hn0)
    rw [digitsVal_natDecimal] at hnb
    have hnlpos : 1 ≤ (natDecimal (digitsVal l)).length := by
      have hnn := natDecimal_ne_nil (digitsVal l)
      have := List.length_pos.mpr hnn
      omega
    have hlen : (natDecimal (digitsVal l)).length = l.length :=
      pow10_length_unique hnlpos hlpos hnb.1 hnb.2 hb.1 hb.2
    exact digits_len_val_inj _ _ (natDecimal_digits _) hd hlen (digitsVal_natDecimal _)

theorem dropWhile_replicate_append {p : Char → Bool} {a : Char} (hp : p a = true)
    (k : Nat) (t : List Char) :
    List.dropWhile p (List.replicate k a ++ t) = List.dropWhile p t := by
  induction k with
  | zero => simp
  | succ k ih =>
    rw [List.replicate_succ, List.cons_append, List.dropWhile_cons, if_pos hp, ih]

theorem trimTrailingZeros_append_zeros (l : List Char) (k : Nat) :
    trimTrailingZeros (l ++ List.replicate k '0') = trimTrailingZeros l := by
  unfold trimTrailingZeros
  rw [List.reverse_append, List.reverse_replicate,
    dropWhile_replicate_append (by rfl) k l.reverse]

theorem trimTrailingZeros_eq_nil_iff (l : List Char) :
    trimTrailingZeros l = [] ↔ ∀ c ∈ l, c = '0' := by
  unfold trimTrailingZeros
  rw [List.reverse_eq_nil_iff, List.dropWhile_eq_nil_iff]
  constructor
  · intro h c hc
    have := h c (List.mem_reverse.mpr hc)
    simpa using this
  · intro h c hc
    have := h c (List.mem_reverse.mp hc)
    simp [this]

theorem digitsVal_replicate_zero (k : Nat) :
    digitsVal (List.replicate k '0') = 0 := by
  induction k with
  | zero => rfl
  | succ k ih =>
    rw [List.replicate_succ, digitsVal_cons, ih]
    show digitVal '0' * 10 ^ _ + 0 = 0
    rw [show digitVal '0' = 0 from rfl]
    omega

theorem digitsVal_eq_zero_iff (l : List Char)
    (hd : ∀ c ∈ l, isDigitChar c = true) :
    digitsVal l = 0 ↔ ∀ c ∈ l, c = '0' := by
  induction l with
  | nil => simp [digitsVal]
  | cons c rest ih =>
    rw [digitsVal_cons]
    constructor
    · intro h
      have hpow : 0 < 10 ^ rest.length := Nat.pos_pow_of_pos _ (by omega)
      have hdc : digitVal c = 0 := by
        by_contra hne
        have : 1 ≤ digitVal c := by omega
        have := Nat.mul_le_mul_right (10 ^ rest.length) this
        omega
      have hrest : digitsVal rest = 0 := by omega
      have hcd := hd c (by simp)
      simp only [isDigitChar, Bool.and_eq_true, decide_eq_true_eq] at hcd
      have hc0 : c = '0' := by
        apply char_toNat_inj
        show c.toNat = 48
        unfold digitVal at hdc
        omega
      intro x hx
      rcases List.mem_cons.mp hx with rfl | hx
      · exact hc0
      · exact (ih (fun y hy => hd y (by simp [hy]))).mp hrest x hx
    · intro h
      have hc0 : c = '0' := h c (by simp)
      have hrest : digitsVal rest = 0 :=
        (ih (fun y hy => hd y (by simp [hy]))).mpr (fun x hx => h x (by simp [hx]))
      rw [hc0, hrest, show digitVal '0' = 0 from rfl]
      omega

/-- Assemble a decimal string from integer and fraction parts: the dot is
present exactly when the fraction is non-empty. -/
def dotFrac (F : List Char) : List Char := if F = [] then [] else '.' :: F

theorem digit_ne_dot {c : Char} (h : isDigitChar c = true) : c ≠ '.' := by
  rw [char_ne_iff_toNat]
  simp only [isDigitChar, Bool.and_eq_true, decide_eq_true_eq] at h
  show c.toNat ≠ 46
  omega

/-- Unfolding of `formatUnits`. -/
theorem formatUnits_eq (v d : Nat) :
    formatUnits v d =
      if v % 10 ^ d = 0 then String.mk (natDecimal (v / 10 ^ d))
      else if (trimTrailingZeros (padStart (natDecimal (v % 10 ^ d)) d)).isEmpty then
        String.mk (natDecimal (v / 10 ^ d))
      else String.mk (natDecimal (v / 10 ^ d) ++ '.' ::
        trimTrailingZeros (padStart (natDecimal (v % 10 ^ d)) d)) := rfl

/-- C2 amended: for a canonical unsigned decimal string (integer part
without leading zeros, fraction of at most `d` digits) and `d ≤ 22` (the
regime where `BigInt(10 ** d)` is exact, see the section comment),
`formatUnits(parseUnits(s, d), d)` equals `s` with trailing fractional
zeros trimmed and the decimal point dropped when the whole fraction was
zeros. -/
theorem formatUnits_parseUnits_roundtrip :
    ∀ (I F : List Char) (d : Nat), d ≤ 22 →
      CanonicalInt I → (∀ c ∈ F, isDigitChar c = true) → F.length ≤ d →
      formatUnits (parseUnits (String.mk (I ++ dotFrac F)) d) d =
        String.mk (I ++ dotFrac (trimTrailingZeros F)) := by
  intro I F d hd22 hI hF hFd
  obtain ⟨hIdig, hIcanon⟩ := hI
  have hInodot : ∀ c ∈ I, c ≠ '.' := fun c hc => digit_ne_dot (hIdig c hc)
  have hFnodot : ∀ c ∈ F, c ≠ '.' := fun c hc => digit_ne_dot (hF c hc)
  set P : List Char := F ++ List.replicate (d - F.length) '0' with hP
  have hparse : parseUnits (String.mk (I ++ dotFrac F)) d = digitsVal (I ++ P) := by
    by_cases hFnil : F = []
    · subst hFnil
      rw [show dotFrac [] = [] from rfl, List.append_nil]
      unfold parseUnits
      rw [show (String.mk I).data = I from rfl, splitOnDot_nodot I hInodot]
      show digitsVal (I ++ padEndTake [] d) = _
      rw [padEndTake_of_ge [] d (by simp)]
    · rw [show dotFrac F = '.' :: F from if_neg hFnil]
      unfold parseUnits
      rw [show (String.mk (I ++ '.' :: F)).data = I ++ '.' :: F from rfl,
        splitOnDot_append I F hInodot hFnodot]
      show digitsVal (I ++ padEndTake F d) = _
      rw [padEndTake_of_ge F d hFd]
  have hPdig : ∀ c ∈ P, isDigitChar c = true := by
    intro c hc
    rw [hP, List.mem_append] at hc
    rcases hc with hc | hc
    · exact hF c hc
    · rw [List.eq_of_mem_replicate hc]
      rfl
  have hPlen : P.length = d := by
    rw [hP, List.length_append, List.length_replicate]
    omega
  have hPval : digitsVal P = digitsVal F * 10 ^ (d - F.length) := by
    rw [hP, digitsVal_append, List.length_replicate, digitsVal_replicate_zero]
    omega
  have hrlt : digitsVal P < 10 ^ d := by
    have := digitsVal_lt P hPdig
    rwa [hPlen] at this
  have hv : digitsVal (I ++ P) = digitsVal I * 10 ^ d + digitsVal P := by
    rw [digitsVal_append, hPlen]
  have hpow : 0 < 10 ^ d := Nat.pos_pow_of_pos _ (by omega)
  have hdiv : digitsVal (I ++ P) / 10 ^ d = digitsVal I := by
    rw [hv, Nat.mul_comm, Nat.mul_add_div hpow, Nat.div_eq_of_lt hrlt]
    omega
  have hmod : digitsVal (I ++ P) % 10 ^ d = digitsVal P := by
    rw [hv, Nat.mul_comm, Nat.mul_add_mod, Nat.mod_eq_of_lt hrlt]
  have hIinv : natDecimal (digitsVal I) = I :=
    natDecimal_digitsVal_canonical I ⟨hIdig, hIcanon⟩
  rw [hparse, formatUnits_eq, hdiv, hmod, hIinv]
  by_cases hr : digitsVal P = 0
  · rw [if_pos hr]
    have hF0 : digitsVal F = 0 := by
      rw [hPval] at hr
      rcases Nat.mul_eq_zero.mp hr with h0 | h0
      · exact h0
      · have : 0 < (10 : Nat) ^ (d - F.length) := Nat.pos_pow_of_pos _ (by omega)
        omega
    have htrim : trimTrailingZeros F = [] :=
      (trimTrailingZeros_eq_nil_iff F).mpr ((digitsVal_eq_zero_iff F hF).mp hF0)
    rw [htrim, show dotFrac [] = [] from rfl, List.append_nil]
  · rw [if_neg hr]
    have hd1 : 1 ≤ d := by
      by_contra hc
      have hd0 : d = 0 := by omega
      rw [hd0, pow_zero] at hrlt
      omega
    have hlenle : (natDecimal (digitsVal P)).length ≤ d :=
      natDecimal_length_le _ d hd1 hrlt
    have hpadP : padStart (natDecimal (digitsVal P)) d = P := by
      apply digits_len_val_inj
      · intro c hc
        rw [padStart, List.mem_append] at hc
        rcases hc with hc | hc
        · rw [List.eq_of_mem_replicate hc]
          rfl
        · exact natDecimal_digits _ c hc
      · exact hPdig
      · rw [padStart, List.length_append, List.length_replicate, hPlen]
        omega
      · rw [padStart, digitsVal_append, digitsVal_replicate_zero, digitsVal_natDecimal]
        omega
    have htrimP : trimTrailingZeros P = trimTrailingZeros F := by
      rw [hP, trimTrailingZeros_append_zeros]
    have htrimF_ne : trimTrailingZeros F ≠ [] := by
      intro hnil
      have hallz := (trimTrailingZeros_eq_nil_iff F).mp hnil
      have hF0 : digitsVal F = 0 := (digitsVal_eq_zero_iff F hF).mpr hallz
      rw [hPval, hF0, zero_mul] at hr
      exact hr rfl
    have hecond : (trimTrailingZeros (padStart (natDecimal (digitsVal P)) d)).isEmpty
        = false := by
      rw [hpadP, htrimP]
      cases hcase : trimTrailingZeros F with
      | nil => exact absurd hcase htrimF_ne
      | cons a l => rfl
    rw [if_neg (by rw [hecond]; exact Bool.false_ne_true), hpadP, htrimP,
      show dotFrac (trimTrailingZeros F) = '.' :: trimTrailingZeros F from
        if_neg htrimF_ne]

/-- C2 counterexample to the claim as stated: `"01"` is a decimal string
with no fractional digits at all (so trimming trailing fractional zeros
leaves it unchanged), yet `formatUnits(parseUnits("01", 0), 0)` is
`"1"`, not `"01"`: the round trip canonicalizes leading zeros, which the
claim's normalization does not allow for. -/
theorem roundtrip_counterexample :
    parseUnits "01" 0 = 1 ∧
    formatUnits (parseUnits "01" 0) 0 = "1" ∧
    ("1" : String) ≠ "01" := by
  have hp : parseUnits "01" 0 = 1 := by decide
  refine ⟨hp, ?_, by decide⟩
  rw [hp, formatUnits_eq]
  rw [if_pos (by decide)]
  rw [show (1 : Nat) / 10 ^ 0 = 1 from rfl, natDecimal_lt10 (by omega)]

/-- Witness for C2 (amended): `formatUnits(parseUnits("1.230", 5), 5)`
is `"1.23"`, the input with its trailing fractional zero trimmed. -/
theorem formatUnits_parseUnits_roundtrip_witness :
    formatUnits (parseUnits "1.230" 5) 5 = "1.23" := by
  have h := formatUnits_parseUnits_roundtrip ['1'] ['2', '3', '0'] 5 (by omega)
    ⟨by decide, Or.inr ⟨by decide, by decide⟩⟩ (by decide) (by decide)
  rw [show String.mk (['1'] ++ dotFrac ['2', '3', '0']) = "1.230" from by decide] at h
  rw [h]
  decide

/-! ## Error taxonomy (src/errors.ts) and request pipelines

`ErrKind` models the `SolanaError` subclass hierarchy; `ErrKind.code`
is the stable `code` each constructor passes to the base class
(`SolanaError` itself carries an explicit code string, modelled by
`ErrKind.base`).  `Thrown.typed kind message ctx details` models an
instance of the hierarchy (`ctx` is the structured context field:
`account` for `SolanaAccountError`, `signature` for
`SolanaTransactionError`, ...); `Thrown.untyped` models every other
thrown JavaScript value, described by a string.  The raw JSON-RPC error
object attached as `details` to a `SolanaRPCError` is modelled as an
untyped value carrying its message.

Each operation performs at most one `fetch`; the `FetchResult` argument
is that round trip's outcome (`ok body` for a 2xx response with parsed
JSON body, `httpError` for `!response.ok`, `exn` when `fetch`/parsing
itself throws, e.g. network failure or timeout abort).  Operations
return the settled result together with the list of HTTP calls issued,
so "no request was sent" is the trace being empty. -/

inductive ErrKind where
  | base (code : String)
  | network
  | rpc (rpcCode : Int)
  | transaction
  | account
  | program
  | validation
deriving DecidableEq

def ErrKind.code : ErrKind → String
  | .base c => c
  | .network => "NETWORK_ERROR"
  | .rpc _ => "RPC_ERROR"
  | .transaction => "TRANSACTION_ERROR"
  | .account => "ACCOUNT_ERROR"
  | .program => "PROGRAM_ERROR"
  | .validation => "VALIDATION_ERROR"

inductive Thrown where
  | typed (kind : ErrKind) (message : String) (ctx : Option String)
      (details : Option Thrown)
  | untyped (description : String)

/-- The `error instanceof SolanaError` test. -/
def Thrown.isSolanaError : Thrown → Bool
  | .typed _ _ _ _ => true
  | .untyped _ => false

structure HttpCall where
  method : String
  target : String
deriving DecidableEq

inductive FetchResult (β : Type) where
  | ok (body : β)
  | httpError (status : Nat) (statusText : String)
  | exn (description : String)

structure RpcErrObj where
  message : String
  code : Int
deriving DecidableEq

/-- Body shape the facade reads from an RPC response: an optional
`error` object and an optional `value` field (`none` models both an
absent field and JSON `null`, which are equally falsy in the source's
`!response.value` tests). -/
structure RpcBody (α : Type) where
  error : Option RpcErrObj
  value : Option α

structure RestBody (α : Type) where
  data : α

/-- A `catch (error) { if (error instanceof SolanaError) throw error;
throw wrap(error); }` block. -/
def passthroughCatch (r : Except Thrown α) (wrap : Thrown → Thrown) :
    Except Thrown α :=
  match r with
  | .ok a => .ok a
  | .error (.typed k m c dt) => .error (.typed k m c dt)
  | .error (.untyped s) => .error (wrap (.untyped s))

/-- A `catch (error) { throw wrap(error); }` block (no `instanceof`
passthrough, as in `getBalance` / `getTokenAccounts`). -/
def wrapAllCatch (r : Except Thrown α) (wrap : Thrown → Thrown) :
    Except Thrown α :=
  match r with
  | .ok a => .ok a
  | .error t => .error (wrap t)

/-- Model of `LicenseChainSolana.makeRPCRequest` (src/utils.ts): POST the
JSON-RPC envelope; non-2xx raises `SolanaNetworkError`; a JSON-RPC
`error` field raises `SolanaRPCError`; a thrown `fetch` is wrapped into
`SolanaNetworkError('RPC request failed')` (typed errors pass through
its own catch unchanged). -/
def makeRPCRequest (method : String) (w : FetchResult (RpcBody α)) :
    Except Thrown (RpcBody α) × List HttpCall :=
  let call : HttpCall := ⟨"POST", method⟩
  match w with
  | .ok body =>
    match body.error with
    | some e =>
      (.error (.typed (.rpc e.code) e.message none (some (.untyped e.message))), [call])
    | none => (.ok body, [call])
  | .httpError status statusText =>
    (.error (.typed .network ("HTTP " ++ toString status ++ ": " ++ statusText)
      none none), [call])
  | .exn descr =>
    (.error (.typed .network "RPC request failed" none (some (.untyped descr))), [call])

/-- Model of the managers' `makeRequest` (SolanaLicenseManager /
SolanaNFTManager / SolanaDeFiManager): REST call with bearer auth;
non-2xx raises `SolanaNetworkError`; a thrown `fetch` is wrapped into
`SolanaNetworkError('API request failed')`. -/
def makeRequest (method endpoint : String) (w : FetchResult (RestBody α)) :
    Except Thrown (RestBody α) × List HttpCall :=
  let call : HttpCall := ⟨method, endpoint⟩
  match w with
  | .ok body => (.ok body, [call])
  | .httpError status statusText =>
    (.error (.typed .network ("HTTP " ++ toString status ++ ": " ++ statusText)
      none none), [call])
  | .exn descr =>
    (.error (.typed .network "API request failed" none (some (.untyped descr))), [call])

/-- Model of `formatPublicKey` (src/utils.ts): the key unchanged, or a
thrown `SolanaValidationError`. -/
def formatPublicKeyE (s : String) : Except Thrown String :=
  if validatePublicKey s then .ok s
  else .error (.typed .validation "Invalid public key format" none none)

/-- The fields of the `getAccountInfo` value object that `getAccount`
reads. -/
structure AccountValue where
  lamports : Int
  executable : Bool
  owner : String
deriving DecidableEq

structure SolanaAccount where
  publicKey : String
  balance : Int
  isExecutable : Bool
  owner : String
  lamports : Int
deriving DecidableEq

/-- The `try` block of `LicenseChainSolana.getAccount`. -/
def getAccountTry (publicKey : String) (w : FetchResult (RpcBody AccountValue)) :
    Except Thrown SolanaAccount × List HttpCall :=
  match formatPublicKeyE publicKey with
  | .error t => (.error t, [])
  | .ok validatedKey =>
    match makeRPCRequest "getAccountInfo" w with
    | (.error t, calls) => (.error t, calls)
    | (.ok body, calls) =>
      match body.value with
      | none => (.error (.typed .account "Account not found" (some validatedKey) none), calls)
      | some v =>
        (.ok ⟨validatedKey, v.lamports, v.executable, v.owner, v.lamports⟩, calls)

/-- Model of `LicenseChainSolana.getAccount` (src/utils.ts lines
297-320): its catch passes typed errors through unchanged and wraps
anything else into `SolanaAccountError('Failed to get account',
publicKey, error)`. -/
def getAccount (publicKey : String) (w : FetchResult (RpcBody AccountValue)) :
    Except Thrown SolanaAccount × List HttpCall :=
  let r := getAccountTry publicKey w
  (passthroughCatch r.1
    (fun t => .typed .account "Failed to get account" (some publicKey) (some t)), r.2)

/-- The `try` block of `LicenseChainSolana.getBalance`; the source
returns `response.value` without a null check, hence the `Option Int`
result. -/
def getBalanceTry (publicKey : String) (w : FetchResult (RpcBody Int)) :
    Except Thrown (Option Int) × List HttpCall :=
  match formatPublicKeyE publicKey with
  | .error t => (.error t, [])
  | .ok _ =>
    match makeRPCRequest "getBalance" w with
    | (.error t, calls) => (.error t, calls)
    | (.ok body, calls) => (.ok body.value, calls)

/-- Model of `LicenseChainSolana.getBalance` (src/utils.ts lines
322-332): its catch has NO `instanceof SolanaError` passthrough — every
failure, typed or not, is wrapped into `SolanaAccountError('Failed to
get balance', publicKey, error)`. -/
def getBalance (publicKey : String) (w : FetchResult (RpcBody Int)) :
    Except Thrown (Option Int) × List HttpCall :=
  let r := getBalanceTry publicKey w
  (wrapAllCatch r.1
    (fun t => .typed .account "Failed to get balance" (some publicKey) (some t)), r.2)

/-- The fields `getTokenAccounts` reads from each returned account (the
source path `account.account.data.parsed.info.*` flattened). -/
structure RawTokenAccount where
  pubkey : String
  mint : String
  owner : String
  amount : String
  decimals : Nat
  state : String
deriving DecidableEq

structure SolanaTokenAccount where
  address : String
  mint : String
  owner : String
  amount : String
  decimals : Nat
  state : String
deriving DecidableEq

/-- The `try` block of `LicenseChainSolana.getTokenAccounts`: validate
`owner`, then — before any request — evaluate `const filters = mint ?
[{ mint: formatPublicKey(mint) }] : undefined` (a falsy `mint`, i.e.
absent or empty, skips the validation); then POST.  A missing/null
`value` makes `response.value.map` throw a native `TypeError`, an
untyped value. -/
def getTokenAccountsTry (owner : String) (mint : Option String)
    (w : FetchResult (RpcBody (List RawTokenAccount))) :
    Except Thrown (List SolanaTokenAccount) × List HttpCall :=
  match formatPublicKeyE owner with
  | .error t => (.error t, [])
  | .ok _ =>
    let mintCheck : Except Thrown Unit :=
      match mint with
      | some m =>
        if m.isEmpty then .ok ()
        else
          match formatPublicKeyE m with
          | .error t => .error t
          | .ok _ => .ok ()
      | none => .ok ()
    match mintCheck with
    | .error t => (.error t, [])
    | .ok _ =>
      match makeRPCRequest "getTokenAccountsByOwner" w with
      | (.error t, calls) => (.error t, calls)
      | (.ok body, calls) =>
        match body.value with
        | none => (.error (.untyped "TypeError: response.value is undefined"), calls)
        | some accounts =>
          (.ok (accounts.map fun a =>
            ⟨a.pubkey, a.mint, a.owner, a.amount, a.decimals, a.state⟩), calls)

/-- Model of `LicenseChainSolana.getTokenAccounts` (src/utils.ts lines
334-357): like `getBalance`, its catch wraps EVERY failure into
`SolanaAccountError('Failed to get token accounts', owner, error)`. -/
def getTokenAccounts (owner : String) (mint : Option String)
    (w : FetchResult (RpcBody (List RawTokenAccount))) :
    Except Thrown (List SolanaTokenAccount) × List HttpCall :=
  let r := getTokenAccountsTry owner mint w
  (wrapAllCatch r.1
    (fun t => .typed .account "Failed to get token accounts" (some owner) (some t)), r.2)

/-- The `try` block of `SolanaDeFiManager.getPositions`. -/
def getPositionsTry (owner : String) (w : FetchResult (RestBody α)) :
    Except Thrown α × List HttpCall :=
  if owner.isEmpty then
    (.error (.typed .validation "Owner address is required" none none), [])
  else if !(validatePublicKey owner) then
    (.error (.typed .validation "Invalid owner address" none none), [])
  else
    match makeRequest "GET" ("/defi/positions/" ++ owner) w with
    | (.error t, calls) => (.error t, calls)
    | (.ok body, calls) => (.ok body.data, calls)

/-- Model of `SolanaDeFiManager.getPositions`
(src/SolanaDeFiManager.ts): typed errors pass through its catch
unchanged; anything else becomes
`SolanaError('Failed to get DeFi positions', 'DEFI_POSITIONS_ERROR', error)`. -/
def getPositions (owner : String) (w : FetchResult (RestBody α)) :
    Except Thrown α × List HttpCall :=
  let r := getPositionsTry owner w
  (passthroughCatch r.1
    (fun t => .typed (.base "DEFI_POSITIONS_ERROR") "Failed to get DeFi positions"
      none (some t)), r.2)

structure TxSigData where
  transactionSignature : String
deriving DecidableEq

/-- Model of `SolanaNFTManager.transferNFT` (src/SolanaNFTManager.ts
lines 73-96): required-field check, then local address validation, then
one POST; typed errors pass through its catch unchanged (`from`/`to`
are renamed `fromAddr`/`toAddr`, `from` being reserved in Lean). -/
def transferNFT (mint fromAddr toAddr : String)
    (w : FetchResult (RestBody TxSigData)) : Except Thrown String × List HttpCall :=
  let r : Except Thrown String × List HttpCall :=
    if mint.isEmpty || fromAddr.isEmpty || toAddr.isEmpty then
      (.error (.typed .validation "Mint, from, and to addresses are required" none none), [])
    else if !(validatePublicKey mint) || !(validatePublicKey fromAddr)
        || !(validatePublicKey toAddr) then
      (.error (.typed .validation "Invalid address format" none none), [])
    else
      match makeRequest "POST" ("/nfts/" ++ mint ++ "/transfer") w with
      | (.error t, calls) => (.error t, calls)
      | (.ok body, calls) => (.ok body.data.transactionSignature, calls)
  (passthroughCatch r.1
    (fun t => .typed (.base "NFT_TRANSFER_ERROR") "Failed to transfer NFT"
      none (some t)), r.2)

/-- JavaScript falsiness of a string-or-undefined value. -/
def jsFalsy : Option String → Bool
  | none => true
  | some s => s.isEmpty

/-- `validatePublicKey` applied to a string-or-undefined value: the
source's `typeof publicKey !== 'string'` guard makes it false on
`undefined`. -/
def validatePublicKeyJs : Option String → Bool
  | none => false
  | some s => validatePublicKey s

/-- String interpolation of a string-or-undefined value. -/
def jsAsString : Option String → String
  | none => "undefined"
  | some s => s

/-- Model of `SolanaDeFiManager.addLiquidity(poolAddress, amountA,
amountB, owner)` (src/SolanaDeFiManager.ts lines 462-486).  The
parameters are `Option String` because the facade calls this
four-parameter method with only three arguments, leaving `owner`
`undefined`. -/
def managerAddLiquidity (poolAddress amountA amountB owner : Option String)
    (w : FetchResult (RestBody TxSigData)) : Except Thrown String × List HttpCall :=
  let r : Except Thrown String × List HttpCall :=
    if jsFalsy poolAddress || jsFalsy amountA || jsFalsy amountB || jsFalsy owner then
      (.error (.typed .validation "Pool address, amounts, and owner are required" none none), [])
    else if !(validatePublicKeyJs poolAddress) || !(validatePublicKeyJs owner) then
      (.error (.typed .validation "Invalid address format" none none), [])
    else
      match makeRequest "POST"
          ("/defi/liquidity-pools/" ++ jsAsString poolAddress ++ "/add") w with
      | (.error t, calls) => (.error t, calls)
      | (.ok body, calls) => (.ok body.data.transactionSignature, calls)
  (passthroughCatch r.1
    (fun t => .typed (.base "ADD_LIQUIDITY_ERROR") "Failed to add liquidity"
      none (some t)), r.2)

/-- Model of `LicenseChainSolana.addLiquidity(poolAddress, amount,
owner)` (src/utils.ts lines 584-586): it forwards its three arguments
positionally into the manager's FOUR-parameter method — `amount` lands
in `amountA`, `owner` in `amountB`, and the manager's `owner` parameter
is left `undefined`. -/
def facadeAddLiquidity (poolAddress amount owner : String)
    (w : FetchResult (RestBody TxSigData)) : Except Thrown String × List HttpCall :=
  managerAddLiquidity (some poolAddress) (some amount) (some owner) none w

/-- C6: for a valid key, `getAccount` raises `SolanaAccountError` (code
`ACCOUNT_ERROR`, message 'Account not found', carrying the key) whenever
the RPC response has a missing or `null` `value` field, and otherwise
returns the typed account reshaped from the response value (`balance`
and `lamports` both from `value.lamports`, `isExecutable` from
`value.executable`, `owner` from `value.owner`). -/
theorem getAccount_null_value :
    ∀ key : String, validatePublicKey key = true →
      (getAccount key (.ok ⟨none, none⟩)).1 =
        .error (.typed .account "Account not found" (some key) none) ∧
      ErrKind.account.code = "ACCOUNT_ERROR" ∧
      ∀ v : AccountValue, (getAccount key (.ok ⟨none, some v⟩)).1 =
        .ok ⟨key, v.lamports, v.executable, v.owner, v.lamports⟩ := by
  intro key hv
  have hfmt : formatPublicKeyE key = .ok key := by
    rw [formatPublicKeyE, if_pos hv]
  have hget : ∀ w : FetchResult (RpcBody AccountValue), (getAccount key w).1 =
      passthroughCatch (getAccountTry key w).1
        (fun t => .typed .account "Failed to get account" (some key) (some t)) :=
    fun _ => rfl
  refine ⟨?_, rfl, ?_⟩
  · rw [hget, getAccountTry, hfmt]
    rfl
  · intro v
    rw [hget, getAccountTry, hfmt]
    rfl

/-- Witness for C6 at a concrete valid key and concrete responses. -/
theorem getAccount_null_value_witness :
    (getAccount "11111111111111111111111111111111" (.ok ⟨none, none⟩)).1 =
      .error (.typed .account "Account not found"
        (some "11111111111111111111111111111111") none) ∧
    (getAccount "11111111111111111111111111111111" (.ok ⟨none, some ⟨7, false, "own"⟩⟩)).1 =
      .ok ⟨"11111111111111111111111111111111", 7, false, "own", 7⟩ := by
  have h := getAccount_null_value "11111111111111111111111111111111" (by decide)
  exact ⟨h.1, h.2.2 ⟨7, false, "own"⟩⟩

/-- C1 counterexample: inside `getBalance("bad")` the local validation
step throws an already-typed `SolanaValidationError`
(`VALIDATION_ERROR`), but `getBalance` does not re-throw it unchanged:
its catch has no `instanceof SolanaError` passthrough and wraps it into
a `SolanaAccountError` (`ACCOUNT_ERROR`), changing the observable
kind/code. -/
theorem errorPassthrough_counterexample :
    (getBalanceTry "bad" (.ok ⟨none, some 5⟩)).1 =
      .error (.typed .validation "Invalid public key format" none none) ∧
    (getBalance "bad" (.ok ⟨none, some 5⟩)).1 =
      .error (.typed .account "Failed to get balance" (some "bad")
        (some (.typed .validation "Invalid public key format" none none))) ∧
    (Thrown.typed .account "Failed to get balance" (some "bad")
        (some (.typed .validation "Invalid public key format" none none)) ≠
      Thrown.typed .validation "Invalid public key format" none none) ∧
    ErrKind.account.code ≠ ErrKind.validation.code := by
  refine ⟨rfl, rfl, ?_, by decide⟩
  intro h
  injection h with hk _ _ _
  exact absurd hk (by decide)

/-- C1 amended: the pass-through-typed/wrap-untyped propagation rule
holds for `getAccount` and for the domain managers (shown for
`SolanaDeFiManager.getPositions`), whose catches test `instanceof
SolanaError`; but the facade's `getBalance` (like `getTokenAccounts`)
wraps EVERY internal failure — already-typed domain errors included —
into `SolanaAccountError`, so a typed error surfaces with its kind/code
replaced and the original error demoted to `details`. -/
theorem errorPassthrough_amended :
    (∀ (key : String) (w : FetchResult (RpcBody AccountValue)) (e : Thrown),
      (getAccountTry key w).1 = .error e → e.isSolanaError = true →
      (getAccount key w).1 = .error e) ∧
    (∀ (key : String) (w : FetchResult (RpcBody AccountValue)) (descr : String),
      (getAccountTry key w).1 = .error (.untyped descr) →
      (getAccount key w).1 = .error (.typed .account "Failed to get account"
        (some key) (some (.untyped descr)))) ∧
    (∀ (α : Type) (owner : String) (w : FetchResult (RestBody α)) (e : Thrown),
      (getPositionsTry owner w).1 = .error e → e.isSolanaError = true →
      (getPositions owner w).1 = .error e) ∧
    (∀ (key : String) (w : FetchResult (RpcBody Int)) (t : Thrown),
      (getBalanceTry key w).1 = .error t →
      (getBalance key w).1 = .error (.typed .account "Failed to get balance"
        (some key) (some t))) := by
  refine ⟨?_, ?_, ?_, ?_⟩
  · intro key w e h htyped
    have hget : (getAccount key w).1 = passthroughCatch (getAccountTry key w).1
        (fun t => .typed .account "Failed to get account" (some key) (some t)) := rfl
    rw [hget, h]
    cases e with
    | typed k m c dt => rfl
    | untyped s => exact absurd htyped (by simp [Thrown.isSolanaError])
  · intro key w descr h
    have hget : (getAccount key w).1 = passthroughCatch (getAccountTry key w).1
        (fun t => .typed .account "Failed to get account" (some key) (some t)) := rfl
    rw [hget, h]
    rfl
  · intro α owner w e h htyped
    have hget : (getPositions owner w).1 = passthroughCatch (getPositionsTry owner w).1
        (fun t => .typed (.base "DEFI_POSITIONS_ERROR") "Failed to get DeFi positions"
          none (some t)) := rfl
    rw [hget, h]
    cases e with
    | typed k m c dt => rfl
    | untyped s => exact absurd htyped (by simp [Thrown.isSolanaError])
  · intro key w t h
    have hget : (getBalance key w).1 = wrapAllCatch (getBalanceTry key w).1
        (fun t => .typed .account "Failed to get balance" (some key) (some t)) := rfl
    rw [hget, h]
    rfl

/-- Witness for C1 (amended) at concrete inputs: `getAccount("bad")`
passes the typed ValidationError through unchanged, while
`getBalance("bad")` wraps the same typed ValidationError into an
AccountError. -/
theorem errorPassthrough_amended_witness :
    (getAccount "bad" (.ok ⟨none, none⟩)).1 =
      .error (.typed .validation "Invalid public key format" none none) ∧
    (getBalance "bad" (.ok ⟨none, some 5⟩)).1 =
      .error (.typed .account "Failed to get balance" (some "bad")
        (some (.typed .validation "Invalid public key format" none none))) :=
  ⟨errorPassthrough_amended.1 "bad" (.ok ⟨none, none⟩)
      (.typed .validation "Invalid public key format" none none) rfl rfl,
    errorPassthrough_amended.2.2.2 "bad" (.ok ⟨none, some 5⟩)
      (.typed .validation "Invalid public key format" none none) rfl⟩

/-- C4 counterexample: for the facade operation
`getTokenAccounts("bad")` the malformed owner address is indeed caught
locally and no HTTP request is sent, but the operation does NOT raise a
ValidationError as the claim demands for every operation: its wrap-all
catch re-throws a `SolanaAccountError` (code `ACCOUNT_ERROR`) with the
ValidationError demoted to `details`. -/
theorem validationBeforeRequest_counterexample :
    getTokenAccounts "bad" none (.ok ⟨none, some []⟩) =
      (.error (.typed .account "Failed to get token accounts" (some "bad")
        (some (.typed .validation "Invalid public key format" none none))), []) ∧
    ErrKind.account ≠ ErrKind.validation :=
  ⟨rfl, by decide⟩

/-- C4 amended: address-shaped arguments are validated locally before
any HTTP request, and a missing or malformed address means no request
is ever issued; manager operations such as `transferNFT` then raise a
ValidationError (message 'Mint, from, and to addresses are required'
when a required field is missing, 'Invalid address format' when an
address fails base58/length validation), while the facade's
`getTokenAccounts` (whose catch wraps everything) surfaces the failure
as an AccountError carrying the ValidationError as its cause. -/
theorem validationBeforeRequest_amended :
    (∀ (mint fromAddr toAddr : String) (w : FetchResult (RestBody TxSigData)),
      (mint.isEmpty || fromAddr.isEmpty || toAddr.isEmpty) = true →
      transferNFT mint fromAddr toAddr w =
        (.error (.typed .validation "Mint, from, and to addresses are required"
          none none), [])) ∧
    (∀ (mint fromAddr toAddr : String) (w : FetchResult (RestBody TxSigData)),
      (mint.isEmpty || fromAddr.isEmpty || toAddr.isEmpty) = false →
      (validatePublicKey mint && validatePublicKey fromAddr &&
        validatePublicKey toAddr) = false →
      transferNFT mint fromAddr toAddr w =
        (.error (.typed .validation "Invalid address format" none none), [])) ∧
    (∀ (owner : String) (mint : Option String)
        (w : FetchResult (RpcBody (List RawTokenAccount))),
      validatePublicKey owner = false →
      getTokenAccounts owner mint w =
        (.error (.typed .account "Failed to get token accounts" (some owner)
          (some (.typed .validation "Invalid public key format" none none))), [])) := by
  refine ⟨?_, ?_, ?_⟩
  · intro mint fromAddr toAddr w h
    unfold transferNFT
    rw [if_pos h]
    rfl
  · intro mint fromAddr toAddr w h1 h2
    unfold transferNFT
    rw [if_neg (by rw [h1]; exact Bool.false_ne_true)]
    have h3 : (!validatePublicKey mint || !validatePublicKey fromAddr
        || !validatePublicKey toAddr) = true := by
      cases hm : validatePublicKey mint <;> cases hf : validatePublicKey fromAddr <;>
        cases ht : validatePublicKey toAddr <;> simp_all
    rw [if_pos h3]
    rfl
  · intro owner mint w h
    have hfmt : formatPublicKeyE owner =
        .error (.typed .validation "Invalid public key format" none none) := by
      rw [formatPublicKeyE, if_neg (by rw [h]; exact Bool.false_ne_true)]
    have htry : getTokenAccountsTry owner mint w =
        (.error (.typed .validation "Invalid public key format" none none), []) := by
      unfold getTokenAccountsTry
      rw [hfmt]
    have hget : getTokenAccounts owner mint w =
        (wrapAllCatch (getTokenAccountsTry owner mint w).1
          (fun t => .typed .account "Failed to get token accounts" (some owner)
            (some t)), (getTokenAccountsTry owner mint w).2) := rfl
    rw [hget, htry]
    rfl

/-- Witness for C4 (amended): `transferNFT("bad-mint", valid, valid)`
raises ValidationError ('Invalid address format') with an empty request
trace, and `getTokenAccounts("bad")` sends no request either. -/
theorem validationBeforeRequest_amended_witness :
    transferNFT "bad-mint" "11111111111111111111111111111111"
        "11111111111111111111111111111111" (.ok ⟨⟨"sig"⟩⟩) =
      (.error (.typed .validation "Invalid address format" none none), []) ∧
    getTokenAccounts "bad" none (.ok ⟨none, some []⟩) =
      (.error (.typed .account "Failed to get token accounts" (some "bad")
        (some (.typed .validation "Invalid public key format" none none))), []) :=
  ⟨validationBeforeRequest_amended.2.1 "bad-mint" "11111111111111111111111111111111"
      "11111111111111111111111111111111" (.ok ⟨⟨"sig"⟩⟩) (by decide) (by decide),
    validationBeforeRequest_amended.2.2 "bad" none (.ok ⟨none, some []⟩) (by decide)⟩

/-- C7: the facade's `addLiquidity(poolAddress, amount, owner)` calls
the DeFi manager's FOUR-parameter `addLiquidity(poolAddress, amountA,
amountB, owner)` with only three arguments, so the manager's `owner` is
`undefined` and its required-field check rejects EVERY call — the facade
operation always raises ValidationError ('Pool address, amounts, and
owner are required') without issuing a request, even for inputs on which
the manager method itself (given its fourth argument) succeeds.  The
delegation therefore does not behave like the manager operation applied
to the same logical arguments. -/
theorem facadeAddLiquidity_bug :
    (∀ (poolAddress amount owner : String) (w : FetchResult (RestBody TxSigData)),
      facadeAddLiquidity poolAddress amount owner w =
        (.error (.typed .validation "Pool address, amounts, and owner are required"
          none none), [])) ∧
    managerAddLiquidity (some "11111111111111111111111111111111") (some "100")
        (some "200") (some "11111111111111111111111111111111") (.ok ⟨⟨"sig"⟩⟩) =
      (.ok "sig",
        [⟨"POST", "/defi/liquidity-pools/11111111111111111111111111111111/add"⟩]) := by
  constructor
  · intro poolAddress amount owner w
    unfold facadeAddLiquidity managerAddLiquidity
    rw [if_pos (by simp [jsFalsy])]
    rfl
  · rfl
